import Mathlib

/-!
A shallow embedding, over the reals, of the data layout in
Ray Tracer/Definitions.h of maxvdec/ray-tracing, together with the
rendering-kernel operations of its specification.  The repository ships only
the data-layout header; each kernel operation whose code is absent is marked
Modelled from the spec in its doc comment and follows the specification's
words.  Device floats are modelled as exact reals, machine ints as integers.
-/

namespace RayTracer

noncomputable section

/-- Vector of two real components, embedding simd_float2. -/
structure Vec2 where
  x : ℝ
  y : ℝ

/-- Vector of three real components, embedding simd_float3. -/
structure Vec3 where
  x : ℝ
  y : ℝ
  z : ℝ

/-- Vector of four real components, embedding simd_float4 (rgba colors). -/
structure Vec4 where
  x : ℝ
  y : ℝ
  z : ℝ
  w : ℝ

instance : Add Vec3 := ⟨fun a b => ⟨a.x + b.x, a.y + b.y, a.z + b.z⟩⟩

instance : Sub Vec3 := ⟨fun a b => ⟨a.x - b.x, a.y - b.y, a.z - b.z⟩⟩

instance : Neg Vec3 := ⟨fun a => ⟨-a.x, -a.y, -a.z⟩⟩

instance : SMul ℝ Vec3 := ⟨fun c v => ⟨c * v.x, c * v.y, c * v.z⟩⟩

instance : Zero Vec3 := ⟨⟨0, 0, 0⟩⟩

/-- Euclidean inner product on Vec3. -/
def dot (a b : Vec3) : ℝ := a.x * b.x + a.y * b.y + a.z * b.z

instance : Add Vec4 := ⟨fun a b => ⟨a.x + b.x, a.y + b.y, a.z + b.z, a.w + b.w⟩⟩

instance : Mul Vec4 := ⟨fun a b => ⟨a.x * b.x, a.y * b.y, a.z * b.z, a.w * b.w⟩⟩

instance : SMul ℝ Vec4 := ⟨fun c v => ⟨c * v.x, c * v.y, c * v.z, c * v.w⟩⟩

/-- Componentwise order on rgba colors. -/
def componentLE (a b : Vec4) : Prop := a.x ≤ b.x ∧ a.y ≤ b.y ∧ a.z ≤ b.z ∧ a.w ≤ b.w

/-- Full white, the initial path throughput of the Integrator. -/
def white : Vec4 := ⟨1, 1, 1, 1⟩

/-- Black, the initial accumulated radiance of the Integrator. -/
def black : Vec4 := ⟨0, 0, 0, 0⟩

/-- Modelled from the spec: the Accumulator kernel is absent from the source
(only Uniforms.pixelSampleScale and the sample counters exist).  One
running-average update per spec section 4.6, per color channel:
newAvg = oldAvg + (sample - oldAvg) / currentSample with currentSample the
1-indexed sample number. -/
def accumStep (oldAvg sample : ℝ) (currentSample : ℕ) : ℝ :=
  oldAvg + (sample - oldAvg) / (currentSample : ℝ)

/-- Folding accumStep over a list of samples, starting from the average
avg of the first n samples already merged. -/
def runAvgFrom : ℝ → ℕ → List ℝ → ℝ
  | avg, _, [] => avg
  | avg, n, s :: rest => runAvgFrom (accumStep avg s (n + 1)) (n + 1) rest

/-- The per-pixel progressive average of a finite sequence of samples,
built purely from running-average updates starting at zero. -/
def runningAverage (samples : List ℝ) : ℝ := runAvgFrom 0 0 samples

/-- Uniforms.pixelSampleScale as a function of totalSamples: 1/totalSamples
(spec section 4.6). -/
def pixelSampleScale (totalSamples : ℕ) : ℝ := 1 / (totalSamples : ℝ)

/-- The alternative sum-then-scale formulation of the Accumulator
(spec section 4.6): sum of all samples times pixelSampleScale. -/
def sumThenScale (samples : List ℝ) : ℝ :=
  samples.sum * pixelSampleScale samples.length

/-- One rectangular tile of the output image, embedding the tile fields of
Uniforms (tileX, tileY, tileWidth, tileHeight). -/
structure Tile where
  tileX : ℕ
  tileY : ℕ
  tileWidth : ℕ
  tileHeight : ℕ
deriving DecidableEq

/-- Number of tiles along one axis: the length divided by the tile length,
rounded up. -/
def numTilesAlong (len tileLen : ℕ) : ℕ := (len + tileLen - 1) / tileLen

/-- The tile in column i, row j of the grid, clipped to the image bounds. -/
def tileAt (w h tw th i j : ℕ) : Tile :=
  ⟨i * tw, j * th, min tw (w - i * tw), min th (h - j * th)⟩

/-- Modelled from the spec: the Tile Scheduler kernel is absent from the
source (only the tile fields of Uniforms exist).  Spec section 4.5: cover the
w-by-h image with a grid of tw-by-th tiles, edge tiles clipped to the image
bounds. -/
def scheduleTiles (w h tw th : ℕ) : List Tile :=
  (List.range (numTilesAlong h th)).flatMap fun j =>
    (List.range (numTilesAlong w tw)).map fun i => tileAt w h tw th i j

/-- Membership of the pixel (x, y) in a tile. -/
def pixelInTile (x y : ℕ) (t : Tile) : Prop :=
  t.tileX ≤ x ∧ x < t.tileX + t.tileWidth ∧ t.tileY ≤ y ∧ y < t.tileY + t.tileHeight

instance (x y : ℕ) (t : Tile) : Decidable (pixelInTile x y t) := by
  unfold pixelInTile
  infer_instance

/-- Per-frame configuration, embedding struct Uniforms of Definitions.h
field for field (the source's spelling globalIllumation is kept). -/
structure Uniforms where
  color : Vec4
  time : ℝ
  pixelDeltaX : Vec3
  pixelDeltaY : Vec3
  pixelOrigin : Vec3
  pixelSampleScale : ℝ
  cameraCenter : Vec3
  viewportSize : Vec2
  defocusDiskU : Vec3
  defocusDiskV : Vec3
  defocusAngle : ℝ
  objCount : ℤ
  lightCount : ℤ
  sampleCount : ℤ
  maxRayDepth : ℤ
  currentSample : ℤ
  totalSamples : ℤ
  tileX : ℤ
  tileY : ℤ
  tileWidth : ℤ
  tileHeight : ℤ
  globalIllumation : Vec4

/-- A ray: origin plus direction, the direction not required to be unit
length (spec section 3). -/
structure Ray where
  origin : Vec3
  direction : Vec3

/-- Sphere primitive, embedding struct Sphere of Definitions.h. -/
structure Sphere where
  center : Vec3
  radius : ℝ

/-- Material discriminant 0, embedding the LAMBIERTIAN define of
Definitions.h (the source's spelling is kept). -/
def LAMBIERTIAN : ℤ := 0

/-- Material discriminant 1, embedding the REFLECTEE define. -/
def REFLECTEE : ℤ := 1

/-- Material discriminant 2, embedding the DIELECTRIC define. -/
def DIELECTRIC : ℤ := 2

/-- Flat material record, embedding struct MeshMaterial of Definitions.h:
every field of every material variant is present on every value. -/
structure MeshMaterial where
  type : ℤ
  emission : ℝ
  albedo : Vec4
  emission_color : Vec4
  reflection_fuzz : ℝ
  refraction_index : ℝ

/-- Object discriminant 0, embedding the TYPE_SPHERE define. -/
def TYPE_SPHERE : ℤ := 0

/-- Flat object record, embedding struct Object of Definitions.h: a type
tag, a Sphere payload (used when the sphere type is selected) and a full
MeshMaterial. -/
structure Object where
  type : ℤ
  s : Sphere
  mat : MeshMaterial

/-- Ephemeral hit record (spec section 3): hit point, oriented unit surface
normal, parametric distance t and the hit object's material. -/
structure Hit where
  point : Vec3
  normal : Vec3
  t : ℝ
  mat : MeshMaterial

/-- The point at parameter t along a ray. -/
def rayAt (ry : Ray) (t : ℝ) : Vec3 := ry.origin + t • ry.direction

/-- Coefficient a of the sphere-intersection quadratic (spec section 4.2):
a = dot(D, D) for ray direction D. -/
def sphereQuadA (ry : Ray) : ℝ := dot ry.direction ry.direction

/-- Coefficient b of the sphere-intersection quadratic:
b = 2 dot(O - C, D). -/
def sphereQuadB (ry : Ray) (s : Sphere) : ℝ :=
  2 * dot (ry.origin - s.center) ry.direction

/-- Coefficient c of the sphere-intersection quadratic:
c = dot(O - C, O - C) - r^2. -/
def sphereQuadC (ry : Ray) (s : Sphere) : ℝ :=
  dot (ry.origin - s.center) (ry.origin - s.center) - s.radius ^ 2

/-- Discriminant of the sphere-intersection quadratic. -/
def sphereDisc (ry : Ray) (s : Sphere) : ℝ :=
  sphereQuadB ry s ^ 2 - 4 * sphereQuadA ry * sphereQuadC ry s

/-- The smaller root of the sphere-intersection quadratic. -/
def sphereRoot1 (ry : Ray) (s : Sphere) : ℝ :=
  (-sphereQuadB ry s - Real.sqrt (sphereDisc ry s)) / (2 * sphereQuadA ry)

/-- The larger root of the sphere-intersection quadratic. -/
def sphereRoot2 (ry : Ray) (s : Sphere) : ℝ :=
  (-sphereQuadB ry s + Real.sqrt (sphereDisc ry s)) / (2 * sphereQuadA ry)

/-- Upper bound test for a candidate t: the bound none stands for plus
infinity, some m for a previously found nearest distance (spec
section 4.2). -/
def beforeMax (t : ℝ) : Option ℝ → Prop
  | none => True
  | some m => t < m

instance (t : ℝ) (tmax : Option ℝ) : Decidable (beforeMax t tmax) :=
  match tmax with
  | none => .isTrue trivial
  | some m => inferInstanceAs (Decidable (t < m))

/-- Modelled from the spec: the per-sphere intersection kernel is absent from
the source (only struct Sphere exists).  Spec section 4.2: solve the
quadratic, no hit on negative discriminant, take the smaller root inside the
valid interval, fall back to the larger root, else no hit; spec section 7:
degenerate geometry (radius at most zero, zero-length direction, the latter
exactly when a = dot(D, D) = 0) is treated as no hit. -/
def hitSphere (ry : Ray) (s : Sphere) (tmin : ℝ) (tmax : Option ℝ) : Option ℝ :=
  if s.radius ≤ 0 ∨ sphereQuadA ry = 0 then none
  else if sphereDisc ry s < 0 then none
  else if tmin < sphereRoot1 ry s ∧ beforeMax (sphereRoot1 ry s) tmax then
    some (sphereRoot1 ry s)
  else if tmin < sphereRoot2 ry s ∧ beforeMax (sphereRoot2 ry s) tmax then
    some (sphereRoot2 ry s)
  else none

/-- Outward unit normal of a sphere at a point p of its surface. -/
def outwardNormal (s : Sphere) (p : Vec3) : Vec3 := (1 / s.radius) • (p - s.center)

/-- Orient a normal against the incoming ray direction (spec section 3): keep
the outward normal when the ray arrives from outside, flip it otherwise. -/
def faceNormal (dir n : Vec3) : Vec3 := if dot dir n < 0 then n else -n

/-- Modelled from the spec: intersection of a ray with one tagged Object,
dispatching on the object's type tag (TYPE_SPHERE is the sole object kind)
and building the Hit record of spec section 3. -/
def intersectObj (ry : Ray) (o : Object) (tmin : ℝ) (tmax : Option ℝ) : Option Hit :=
  if o.type = TYPE_SPHERE then
    match hitSphere ry o.s tmin tmax with
    | none => none
    | some t =>
      some ⟨rayAt ry t, faceNormal ry.direction (outwardNormal o.s (rayAt ry t)), t, o.mat⟩
  else none

/-- Running-nearest update of the Intersector (spec section 4.2): a candidate
hit replaces the best hit so far only when its t is strictly smaller. -/
def nearerHit (best cand : Option Hit) : Option Hit :=
  match best, cand with
  | none, c => c
  | some b, none => some b
  | some b, some c => if c.t < b.t then some c else some b

/-- Modelled from the spec: the Intersector kernel is absent from the source.
Spec section 4.2: iterate all objects, keeping a candidate only when its t is
strictly smaller than every t found so far (equivalently, the previously
found nearest distance serves as the upper bound of the valid interval). -/
def intersectScene (ry : Ray) (tmin : ℝ) (objs : List Object) : Option Hit :=
  objs.foldl (fun best o => nearerHit best (intersectObj ry o tmin none)) none

/-- Emitted radiance of a hit (spec section 4.3): emission times
emission_color when emission is positive, else black. -/
def emitted (hh : Hit) : Vec4 :=
  if 0 < hh.mat.emission then hh.mat.emission • hh.mat.emission_color else black

/-- Modelled from the spec: the Integrator kernel is absent from the source
(only Uniforms.maxRayDepth exists).  Spec section 4.4: an iterative loop
carrying a throughput attenuation and an accumulated radiance sum; on miss
add throughput times the global illumination and stop, on hit add throughput
times the emitted radiance, then either stop on absorption, stop when the
depth budget is exhausted, or multiply the throughput by the attenuation and
continue with the scattered ray.  The fuel counts scatter continuations, so
spec section 8's property holds: a depth budget of zero still performs the
first intersection test and returns the miss contribution on a miss.  The
material scatterer is passed as a function (its random draws are its own). -/
def integrate (objs : List Object) (gi : Vec4) (scat : Hit → Ray → Option (Vec4 × Ray))
    (tmin : ℝ) : ℕ → Ray → Vec4 → Vec4 → Vec4
  | 0, ry, throughput, acc =>
    match intersectScene ry tmin objs with
    | none => acc + throughput * gi
    | some hh => acc + throughput * emitted hh
  | Nat.succ n, ry, throughput, acc =>
    match intersectScene ry tmin objs with
    | none => acc + throughput * gi
    | some hh =>
      match scat hh ry with
      | none => acc + throughput * emitted hh
      | some pr =>
        integrate objs gi scat tmin n pr.2 (throughput * pr.1) (acc + throughput * emitted hh)

/-- Mirror reflection of a direction v about a normal n (spec section 4.3). -/
def reflect (v n : Vec3) : Vec3 := v - (2 * dot v n) • n

/-- Modelled from the spec: the Reflective branch of the Material Scatterer
is absent from the source (only MeshMaterial.reflection_fuzz exists).  Spec
section 4.3: mirror-reflect the incoming direction about the normal, perturb
by reflection_fuzz times a random unit vector (passed in as fuzzVec), absorb
when the perturbed direction falls on the wrong side of the surface, else
scatter with attenuation albedo. -/
def scatterReflective (mat : MeshMaterial) (rayDir pnt normal fuzzVec : Vec3) :
    Option (Vec4 × Ray) :=
  let d := reflect rayDir normal + mat.reflection_fuzz • fuzzVec
  if dot d normal ≤ 0 then none else some (mat.albedo, ⟨pnt, d⟩)

/-- Modelled from the spec: the Lambertian branch of the Material Scatterer
is absent from the source (only MeshMaterial.albedo exists).  Spec
section 4.3: scattered direction is the normal plus a random unit vector
(passed in as randUnit), falling back to the normal itself when the result is
degenerate (zero length in this exact-arithmetic model); attenuation is the
albedo. -/
def scatterLambertian (mat : MeshMaterial) (pnt normal randUnit : Vec3) : Vec4 × Ray :=
  let d := normal + randUnit
  (mat.albedo, ⟨pnt, if dot d d = 0 then normal else d⟩)

/-- Pixel sample position of the Camera (spec section 4.1):
pixelOrigin + (x + jitterX) * pixelDeltaX + (y + jitterY) * pixelDeltaY. -/
def samplePosition (u : Uniforms) (x y : ℤ) (jitterX jitterY : ℝ) : Vec3 :=
  u.pixelOrigin + ((x : ℝ) + jitterX) • u.pixelDeltaX + ((y : ℝ) + jitterY) • u.pixelDeltaY

/-- Modelled from the spec: the Camera kernel is absent from the source (only
the camera fields of Uniforms exist).  Spec section 4.1: ray origin is the
camera center when defocusAngle is zero, else the camera center offset by the
lens-disk sample over the defocus disk basis; ray direction is the pixel
sample position minus the origin, not normalized. -/
def generateRay (u : Uniforms) (x y : ℤ) (jitterX jitterY lensU lensV : ℝ) : Ray :=
  let o := if u.defocusAngle = 0 then u.cameraCenter
    else u.cameraCenter + lensU • u.defocusDiskU + lensV • u.defocusDiskV
  ⟨o, samplePosition u x y jitterX jitterY - o⟩

/-- Concrete Uniforms value used to instantiate camera statements. -/
def demoUniforms : Uniforms :=
  ⟨⟨0, 0, 0, 0⟩, 0, ⟨1, 0, 0⟩, ⟨0, 1, 0⟩, ⟨0, 0, 0⟩, 1, ⟨0, 0, 0⟩, ⟨1, 1⟩,
    ⟨1, 0, 0⟩, ⟨0, 1, 0⟩, 0, 0, 0, 1, 1, 1, 1, 0, 0, 8, 8, ⟨0, 0, 0, 1⟩⟩

end

theorem v3_ext (a b : Vec3) (hx : a.x = b.x) (hy : a.y = b.y) (hz : a.z = b.z) :
    a = b := by
  cases a
  cases b
  dsimp at hx hy hz
  rw [hx, hy, hz]

theorem v4_ext (a b : Vec4) (hx : a.x = b.x) (hy : a.y = b.y) (hz : a.z = b.z)
    (hw : a.w = b.w) : a = b := by
  cases a
  cases b
  dsimp at hx hy hz hw
  rw [hx, hy, hz, hw]

@[simp] theorem v3_add_x (a b : Vec3) : (a + b).x = a.x + b.x := rfl

@[simp] theorem v3_add_y (a b : Vec3) : (a + b).y = a.y + b.y := rfl

@[simp] theorem v3_add_z (a b : Vec3) : (a + b).z = a.z + b.z := rfl

@[simp] theorem v3_sub_x (a b : Vec3) : (a - b).x = a.x - b.x := rfl

@[simp] theorem v3_sub_y (a b : Vec3) : (a - b).y = a.y - b.y := rfl

@[simp] theorem v3_sub_z (a b : Vec3) : (a - b).z = a.z - b.z := rfl

@[simp] theorem v3_neg_x (a : Vec3) : (-a).x = -a.x := rfl

@[simp] theorem v3_neg_y (a : Vec3) : (-a).y = -a.y := rfl

@[simp] theorem v3_neg_z (a : Vec3) : (-a).z = -a.z := rfl

@[simp] theorem v3_smul_x (c : ℝ) (a : Vec3) : (c • a).x = c * a.x := rfl

@[simp] theorem v3_smul_y (c : ℝ) (a : Vec3) : (c • a).y = c * a.y := rfl

@[simp] theorem v3_smul_z (c : ℝ) (a : Vec3) : (c • a).z = c * a.z := rfl

@[simp] theorem v3_zero_x : (0 : Vec3).x = 0 := rfl

@[simp] theorem v3_zero_y : (0 : Vec3).y = 0 := rfl

@[simp] theorem v3_zero_z : (0 : Vec3).z = 0 := rfl

@[simp] theorem v4_add_x (a b : Vec4) : (a + b).x = a.x + b.x := rfl

@[simp] theorem v4_add_y (a b : Vec4) : (a + b).y = a.y + b.y := rfl

@[simp] theorem v4_add_z (a b : Vec4) : (a + b).z = a.z + b.z := rfl

@[simp] theorem v4_add_w (a b : Vec4) : (a + b).w = a.w + b.w := rfl

@[simp] theorem v4_mul_x (a b : Vec4) : (a * b).x = a.x * b.x := rfl

@[simp] theorem v4_mul_y (a b : Vec4) : (a * b).y = a.y * b.y := rfl

@[simp] theorem v4_mul_z (a b : Vec4) : (a * b).z = a.z * b.z := rfl

@[simp] theorem v4_mul_w (a b : Vec4) : (a * b).w = a.w * b.w := rfl

@[simp] theorem v4_smul_x (c : ℝ) (a : Vec4) : (c • a).x = c * a.x := rfl

@[simp] theorem v4_smul_y (c : ℝ) (a : Vec4) : (c • a).y = c * a.y := rfl

@[simp] theorem v4_smul_z (c : ℝ) (a : Vec4) : (c • a).z = c * a.z := rfl

@[simp] theorem v4_smul_w (c : ℝ) (a : Vec4) : (c • a).w = c * a.w := rfl

theorem runAvgFrom_eq (l : List ℝ) : ∀ (avg : ℝ) (n : ℕ), 0 < n + l.length →
    runAvgFrom avg n l = ((n : ℝ) * avg + l.sum) / ((n : ℝ) + (l.length : ℝ)) := by
  induction l with
  | nil =>
    intro avg n hn
    have hn2 : (n : ℝ) ≠ 0 := by
      have : 0 < n := by simpa using hn
      exact_mod_cast this.ne'
    simp only [runAvgFrom, List.sum_nil, List.length_nil, Nat.cast_zero, add_zero]
    field_simp
  | cons s rest ih =>
    intro avg n _
    have h1 : 0 < (n + 1) + rest.length := by omega
    have hne : ((n : ℝ) + 1) ≠ 0 := by positivity
    have hden : ((n : ℝ) + 1 + (rest.length : ℝ)) ≠ 0 := by positivity
    rw [runAvgFrom, ih (accumStep avg s (n + 1)) (n + 1) h1, accumStep]
    push_cast
    field_simp
    ring

theorem runningAverage_eq_mean (l : List ℝ) (hl : l ≠ []) :
    runningAverage l = l.sum / (l.length : ℝ) := by
  have h := runAvgFrom_eq l 0 0 (by simpa using List.length_pos.mpr hl)
  simpa [runningAverage] using h

/-- C1: merging a finite nonempty sequence of per-pixel samples through the
running-average update newAvg = oldAvg + (sample - oldAvg) / currentSample
yields exactly the arithmetic mean of the samples, independently of the order
in which they are merged, and agrees with the sum-then-scale formulation
using pixelSampleScale = 1/totalSamples; in particular the samples [1, 3]
with totalSamples = 2 average to 2 under either formulation. -/
theorem accumulator_average_correct (l : List ℝ) (hl : l ≠ []) :
    runningAverage l = l.sum / (l.length : ℝ) ∧
    (∀ l2 : List ℝ, l2.Perm l → runningAverage l2 = runningAverage l) ∧
    runningAverage l = l.sum * pixelSampleScale l.length ∧
    runningAverage [1, 3] = 2 ∧ sumThenScale [1, 3] = 2 := by
  refine ⟨runningAverage_eq_mean l hl, ?_, ?_, ?_, ?_⟩
  · intro l2 h2
    have hl2 : l2 ≠ [] := by
      intro hnil
      subst hnil
      exact hl (List.Perm.nil_eq h2).symm
    rw [runningAverage_eq_mean l2 hl2, runningAverage_eq_mean l hl, h2.sum_eq, h2.length_eq]
  · rw [runningAverage_eq_mean l hl, pixelSampleScale, mul_one_div]
  · norm_num [runningAverage, runAvgFrom, accumStep]
  · norm_num [sumThenScale, pixelSampleScale]

/-- Witness for C1 at the concrete sample list [1, 3]. -/
theorem accumulator_average_correct_witness :
    ([1, 3] : List ℝ) ≠ [] ∧ runningAverage [1, 3] = 2 ∧ sumThenScale [1, 3] = 2 := by
  have h := accumulator_average_correct [1, 3] (by simp)
  exact ⟨by simp, h.2.2.2.1, h.2.2.2.2⟩

theorem div_lt_numTilesAlong {x w tw : ℕ} (htw : 0 < tw) (hx : x < w) :
    x / tw < numTilesAlong w tw := by
  unfold numTilesAlong
  have h1 : w + tw - 1 = (w - 1) + tw := by omega
  rw [h1, Nat.add_div_right _ htw]
  exact Nat.lt_succ_of_le (Nat.div_le_div_right (by omega))

theorem tile_start_lt {i w tw : ℕ} (htw : 0 < tw) (hi : i < numTilesAlong w tw) :
    i * tw < w := by
  unfold numTilesAlong at hi
  have key : i * tw + tw ≤ w + tw - 1 := by
    calc i * tw + tw = (i + 1) * tw := by ring
    _ ≤ ((w + tw - 1) / tw) * tw := mul_le_mul_right' (Nat.succ_le_of_lt hi) tw
    _ ≤ w + tw - 1 := Nat.div_mul_le_self _ _
  generalize i * tw = a at key ⊢
  omega

theorem tile_index_eq {x tw r i : ℕ} (h1 : i * tw ≤ x) (h2 : x < i * tw + min tw r) :
    x / tw = i := by
  apply Nat.div_eq_of_lt_le h1
  rw [Nat.succ_mul]
  exact lt_of_lt_of_le h2 (Nat.add_le_add_left (min_le_left _ _) _)

theorem pixel_mem_own_tile {x y w h tw th : ℕ} (htw : 0 < tw) (hth : 0 < th)
    (hx : x < w) (hy : y < h) :
    pixelInTile x y (tileAt w h tw th (x / tw) (y / th)) := by
  have e1 := Nat.div_add_mod' x tw
  have r1 := Nat.mod_lt x htw
  have d1 := Nat.div_mul_le_self x tw
  have e2 := Nat.div_add_mod' y th
  have r2 := Nat.mod_lt y hth
  have d2 := Nat.div_mul_le_self y th
  unfold pixelInTile tileAt
  dsimp only
  generalize x % tw = bx at e1 r1
  generalize x / tw * tw = ax at e1 d1 ⊢
  generalize y % th = bb at e2 r2
  generalize y / th * th = ay at e2 d2 ⊢
  omega

theorem mem_scheduleTiles {w h tw th : ℕ} {t : Tile} :
    t ∈ scheduleTiles w h tw th ↔
      ∃ j, j < numTilesAlong h th ∧ ∃ i, i < numTilesAlong w tw ∧
        t = tileAt w h tw th i j := by
  simp only [scheduleTiles, List.mem_flatMap, List.mem_map, List.mem_range]
  constructor
  · rintro ⟨j, hj, i, hi, rfl⟩
    exact ⟨j, hj, i, hi, rfl⟩
  · rintro ⟨j, hj, i, hi, rfl⟩
    exact ⟨j, hj, i, hi, rfl⟩

/-- C5: for positive image dimensions and tile sizes, the Tile Scheduler's
tiles are pairwise disjoint, never extend past the image bounds, cover every
image pixel, and every tile is clipped to between 1 and the full tile size
per side. -/
theorem tile_scheduler_exact_partition (w h tw th : ℕ)
    (hw : 0 < w) (hh : 0 < h) (htw : 0 < tw) (hth : 0 < th) :
    (∀ x y : ℕ, (x < w ∧ y < h) ↔ ∃ t ∈ scheduleTiles w h tw th, pixelInTile x y t) ∧
    (∀ t1 ∈ scheduleTiles w h tw th, ∀ t2 ∈ scheduleTiles w h tw th,
      t1 ≠ t2 → ∀ x y : ℕ, ¬(pixelInTile x y t1 ∧ pixelInTile x y t2)) ∧
    (∀ t ∈ scheduleTiles w h tw th,
      t.tileX + t.tileWidth ≤ w ∧ t.tileY + t.tileHeight ≤ h ∧
      1 ≤ t.tileWidth ∧ t.tileWidth ≤ tw ∧ 1 ≤ t.tileHeight ∧ t.tileHeight ≤ th) := by
  refine ⟨?_, ?_, ?_⟩
  · intro x y
    constructor
    · rintro ⟨hx, hy⟩
      refine ⟨tileAt w h tw th (x / tw) (y / th), ?_, pixel_mem_own_tile htw hth hx hy⟩
      exact mem_scheduleTiles.mpr
        ⟨y / th, div_lt_numTilesAlong hth hy, x / tw, div_lt_numTilesAlong htw hx, rfl⟩
    · rintro ⟨t, hmem, hpix⟩
      obtain ⟨j, hj, i, hi, rfl⟩ := mem_scheduleTiles.mp hmem
      obtain ⟨p1, p2, p3, p4⟩ := hpix
      dsimp only [tileAt] at p1 p2 p3 p4
      constructor
      · generalize i * tw = a at p1 p2
        omega
      · generalize j * th = a at p3 p4
        omega
  · rintro t1 hm1 t2 hm2 hne x y ⟨hp1, hp2⟩
    obtain ⟨j1, hj1, i1, hi1, rfl⟩ := mem_scheduleTiles.mp hm1
    obtain ⟨j2, hj2, i2, hi2, rfl⟩ := mem_scheduleTiles.mp hm2
    obtain ⟨q1, q2, q3, q4⟩ := hp1
    obtain ⟨s1, s2, s3, s4⟩ := hp2
    dsimp only [tileAt] at q1 q2 q3 q4 s1 s2 s3 s4
    have e1 : x / tw = i1 := tile_index_eq q1 q2
    have e2 : x / tw = i2 := tile_index_eq s1 s2
    have e3 : y / th = j1 := tile_index_eq q3 q4
    have e4 : y / th = j2 := tile_index_eq s3 s4
    apply hne
    rw [← e1, ← e2, ← e3, ← e4]
  · intro t hmem
    obtain ⟨j, hj, i, hi, rfl⟩ := mem_scheduleTiles.mp hmem
    have hiw : i * tw < w := tile_start_lt htw hi
    have hjh : j * th < h := tile_start_lt hth hj
    dsimp only [tileAt]
    generalize i * tw = a at hiw ⊢
    generalize j * th = b at hjh ⊢
    refine ⟨by omega, by omega, by omega, by omega, by omega, by omega⟩

/-- Witness for C5 at the 17-by-13 image with 8-by-8 tiles of the spec's
testable property. -/
theorem tile_scheduler_exact_partition_witness :
    ((0:ℕ) < 17 ∧ (0:ℕ) < 13 ∧ (0:ℕ) < 8) ∧
    ((∀ x y : ℕ, (x < 17 ∧ y < 13) ↔ ∃ t ∈ scheduleTiles 17 13 8 8, pixelInTile x y t) ∧
    (∀ t1 ∈ scheduleTiles 17 13 8 8, ∀ t2 ∈ scheduleTiles 17 13 8 8,
      t1 ≠ t2 → ∀ x y : ℕ, ¬(pixelInTile x y t1 ∧ pixelInTile x y t2)) ∧
    (∀ t ∈ scheduleTiles 17 13 8 8,
      t.tileX + t.tileWidth ≤ 17 ∧ t.tileY + t.tileHeight ≤ 13 ∧
      1 ≤ t.tileWidth ∧ t.tileWidth ≤ 8 ∧ 1 ≤ t.tileHeight ∧ t.tileHeight ≤ 8)) :=
  ⟨⟨by norm_num, by norm_num, by norm_num⟩,
    tile_scheduler_exact_partition 17 13 8 8 (by norm_num) (by norm_num)
      (by norm_num) (by norm_num)⟩

theorem white_mul (gi : Vec4) : white * gi = gi := by
  apply v4_ext <;> simp [white]

/-- C2: when the primary ray misses every object on its first intersection
test, the Integrator with a depth budget of zero returns exactly the miss
contribution throughput times globalIllumination, which is the global
illumination color since the initial throughput is white; the same holds for
every depth budget, so no bounced light is ever added for such a ray,
regardless of scene content or material behavior. -/
theorem integrator_depth_zero_miss (objs : List Object) (gi : Vec4)
    (scat : Hit → Ray → Option (Vec4 × Ray)) (tmin : ℝ) (ry : Ray)
    (hmiss : intersectScene ry tmin objs = none) :
    integrate objs gi scat tmin 0 ry white black = white * gi ∧
    white * gi = gi ∧
    (∀ fuel : ℕ, integrate objs gi scat tmin fuel ry white black = gi) := by
  have hg : black + white * gi = gi := by
    apply v4_ext <;> simp [white, black]
  have hbase : ∀ fuel : ℕ, integrate objs gi scat tmin fuel ry white black = gi := by
    intro fuel
    cases fuel with
    | zero =>
      rw [integrate, hmiss]
      exact hg
    | succ n =>
      rw [integrate, hmiss]
      exact hg
  exact ⟨by rw [hbase 0, white_mul], white_mul gi, hbase⟩

/-- Witness for C2 at the empty scene, a concrete ray and a concrete global
illumination color. -/
theorem integrator_depth_zero_miss_witness :
    intersectScene ⟨⟨0, 0, 0⟩, ⟨0, 0, 1⟩⟩ (1 / 1000) [] = none ∧
    (integrate [] ⟨1, 2, 3, 4⟩ (fun _ _ => none) (1 / 1000) 0 ⟨⟨0, 0, 0⟩, ⟨0, 0, 1⟩⟩
        white black = white * ⟨1, 2, 3, 4⟩ ∧
      white * ⟨1, 2, 3, 4⟩ = ⟨1, 2, 3, 4⟩ ∧
      (∀ fuel : ℕ, integrate [] ⟨1, 2, 3, 4⟩ (fun _ _ => none) (1 / 1000) fuel
        ⟨⟨0, 0, 0⟩, ⟨0, 0, 1⟩⟩ white black = ⟨1, 2, 3, 4⟩)) :=
  ⟨rfl, integrator_depth_zero_miss [] ⟨1, 2, 3, 4⟩ (fun _ _ => none) (1 / 1000)
    ⟨⟨0, 0, 0⟩, ⟨0, 0, 1⟩⟩ rfl⟩

/-- C4: the Camera is a pure function of its inputs: its ray has direction
equal to the pixel sample position minus the ray origin (not normalized), its
origin is the camera center exactly when defocusAngle is zero and otherwise
the camera center offset over the defocus disk, and the ray reaches the pixel
sample position at parameter one. -/
theorem camera_ray_generation (u : Uniforms) (x y : ℤ) (jitterX jitterY lensU lensV : ℝ)
    (hjx : 0 ≤ jitterX ∧ jitterX < 1) (hjy : 0 ≤ jitterY ∧ jitterY < 1) :
    (generateRay u x y jitterX jitterY lensU lensV).direction =
      samplePosition u x y jitterX jitterY -
        (generateRay u x y jitterX jitterY lensU lensV).origin ∧
    (u.defocusAngle = 0 →
      (generateRay u x y jitterX jitterY lensU lensV).origin = u.cameraCenter) ∧
    (u.defocusAngle ≠ 0 →
      (generateRay u x y jitterX jitterY lensU lensV).origin =
        u.cameraCenter + lensU • u.defocusDiskU + lensV • u.defocusDiskV) ∧
    rayAt (generateRay u x y jitterX jitterY lensU lensV) 1 =
      samplePosition u x y jitterX jitterY := by
  refine ⟨rfl, ?_, ?_, ?_⟩
  · intro h0
    simp [generateRay, h0]
  · intro h0
    simp [generateRay, h0]
  · have key : ∀ a b : Vec3, a + (1 : ℝ) • (b - a) = b := by
      intro a b
      apply v3_ext <;> simp
    exact key _ _

/-- Witness for C4 at the concrete Uniforms value, pixel (0, 0), zero jitter
and zero lens sample. -/
theorem camera_ray_generation_witness :
    (((0:ℝ) ≤ 0 ∧ (0:ℝ) < 1) ∧ ((0:ℝ) ≤ 0 ∧ (0:ℝ) < 1)) ∧
    ((generateRay demoUniforms 0 0 0 0 0 0).direction =
      samplePosition demoUniforms 0 0 0 0 -
        (generateRay demoUniforms 0 0 0 0 0 0).origin ∧
    (demoUniforms.defocusAngle = 0 →
      (generateRay demoUniforms 0 0 0 0 0 0).origin = demoUniforms.cameraCenter) ∧
    (demoUniforms.defocusAngle ≠ 0 →
      (generateRay demoUniforms 0 0 0 0 0 0).origin =
        demoUniforms.cameraCenter + (0:ℝ) • demoUniforms.defocusDiskU +
          (0:ℝ) • demoUniforms.defocusDiskV) ∧
    rayAt (generateRay demoUniforms 0 0 0 0 0 0) 1 = samplePosition demoUniforms 0 0 0 0) :=
  ⟨⟨⟨le_refl 0, by norm_num⟩, ⟨le_refl 0, by norm_num⟩⟩,
    camera_ray_generation demoUniforms 0 0 0 0 0 0 ⟨le_refl 0, by norm_num⟩
      ⟨le_refl 0, by norm_num⟩⟩

/-- C8: for a Lambertian material whose albedo channels all lie in the unit
interval, the attenuation returned by the scatterer (the albedo) multiplied
into any componentwise-nonnegative incoming throughput never exceeds that
throughput componentwise. -/
theorem lambertian_never_amplifies (mat : MeshMaterial) (pnt normal randUnit : Vec3)
    (throughput : Vec4)
    (halb0 : componentLE black mat.albedo) (halb1 : componentLE mat.albedo white)
    (hthr : componentLE black throughput) :
    componentLE ((scatterLambertian mat pnt normal randUnit).1 * throughput) throughput := by
  obtain ⟨a1, a2, a3, a4⟩ := halb0
  obtain ⟨b1, b2, b3, b4⟩ := halb1
  obtain ⟨c1, c2, c3, c4⟩ := hthr
  simp [black, white] at a1 a2 a3 a4 b1 b2 b3 b4 c1 c2 c3 c4
  refine ⟨?_, ?_, ?_, ?_⟩ <;> simp [scatterLambertian]
  · exact mul_le_of_le_one_left c1 b1
  · exact mul_le_of_le_one_left c2 b2
  · exact mul_le_of_le_one_left c3 b3
  · exact mul_le_of_le_one_left c4 b4

/-- Witness for C8 at a half-gray albedo and a concrete throughput. -/
theorem lambertian_never_amplifies_witness :
    (componentLE black (MeshMaterial.mk 0 0 ⟨1/2, 1/2, 1/2, 1⟩ ⟨0, 0, 0, 0⟩ 0 1).albedo ∧
      componentLE (MeshMaterial.mk 0 0 ⟨1/2, 1/2, 1/2, 1⟩ ⟨0, 0, 0, 0⟩ 0 1).albedo white ∧
      componentLE black ⟨1, 1/2, 0, 1⟩) ∧
    componentLE
      ((scatterLambertian (MeshMaterial.mk 0 0 ⟨1/2, 1/2, 1/2, 1⟩ ⟨0, 0, 0, 0⟩ 0 1)
          ⟨0, 0, 0⟩ ⟨0, 0, 1⟩ ⟨0, 0, 1⟩).1 * ⟨1, 1/2, 0, 1⟩)
      ⟨1, 1/2, 0, 1⟩ :=
  ⟨⟨by norm_num [componentLE, black], by norm_num [componentLE, white],
      by norm_num [componentLE, black]⟩,
    lambertian_never_amplifies (MeshMaterial.mk 0 0 ⟨1/2, 1/2, 1/2, 1⟩ ⟨0, 0, 0, 0⟩ 0 1)
      ⟨0, 0, 0⟩ ⟨0, 0, 1⟩ ⟨0, 0, 1⟩ ⟨1, 1/2, 0, 1⟩
      (by norm_num [componentLE, black]) (by norm_num [componentLE, white])
      (by norm_num [componentLE, black])⟩

/-- C6: with zero reflection fuzz any scattered ray of the Reflective
material has exactly the mirror-reflected direction; against a unit normal, a
ray arriving along the normal is reflected straight back along the normal;
and whenever the perturbed direction lands on the wrong side of the surface
(nonpositive dot with the normal) the ray is absorbed. -/
theorem reflective_mirror_and_absorption (mat : MeshMaterial)
    (rayDir pnt normal fuzzVec : Vec3) :
    (mat.reflection_fuzz = 0 →
      ∀ (a : Vec4) (r2 : Ray),
        scatterReflective mat rayDir pnt normal fuzzVec = some (a, r2) →
          r2.direction = reflect rayDir normal ∧ a = mat.albedo) ∧
    (dot normal normal = 1 →
      ∀ c : ℝ, reflect (-(c • normal)) normal = c • normal) ∧
    (dot (reflect rayDir normal + mat.reflection_fuzz • fuzzVec) normal ≤ 0 →
      scatterReflective mat rayDir pnt normal fuzzVec = none) := by
  refine ⟨?_, ?_, ?_⟩
  · intro hf a r2 hsc
    have hd : reflect rayDir normal + mat.reflection_fuzz • fuzzVec = reflect rayDir normal := by
      rw [hf]
      apply v3_ext <;> simp
    simp only [scatterReflective] at hsc
    rw [hd] at hsc
    split_ifs at hsc with hcond
    simp only [Option.some.injEq, Prod.mk.injEq] at hsc
    obtain ⟨h1, h2⟩ := hsc
    subst h2
    exact ⟨rfl, h1.symm⟩
  · intro hn c
    simp only [dot] at hn
    apply v3_ext
    · simp only [reflect, dot, v3_sub_x, v3_neg_x, v3_smul_x, v3_neg_y, v3_smul_y,
        v3_neg_z, v3_smul_z]
      linear_combination 2 * c * normal.x * hn
    · simp only [reflect, dot, v3_sub_y, v3_neg_x, v3_smul_x, v3_neg_y, v3_smul_y,
        v3_neg_z, v3_smul_z]
      linear_combination 2 * c * normal.y * hn
    · simp only [reflect, dot, v3_sub_z, v3_neg_x, v3_smul_x, v3_neg_y, v3_smul_y,
        v3_neg_z, v3_smul_z]
      linear_combination 2 * c * normal.z * hn
  · intro hcond
    simp only [scatterReflective]
    rw [if_pos hcond]

/-- C10: every Object is a flat fixed-size record carrying a Sphere payload
and a complete MeshMaterial with all variant fields; the material
discriminants are 0, 1, 2 for Lambertian, Reflective, Dielectric, pairwise
distinct, and the sole object discriminant is 0 for sphere; every field read
is total and well-defined regardless of the type tags. -/
theorem object_flat_tagged_record :
    LAMBIERTIAN = 0 ∧ REFLECTEE = 1 ∧ DIELECTRIC = 2 ∧ TYPE_SPHERE = 0 ∧
    LAMBIERTIAN ≠ REFLECTEE ∧ LAMBIERTIAN ≠ DIELECTRIC ∧ REFLECTEE ≠ DIELECTRIC ∧
    (∀ o : Object,
      o = ⟨o.type, ⟨o.s.center, o.s.radius⟩,
        ⟨o.mat.type, o.mat.emission, o.mat.albedo, o.mat.emission_color,
          o.mat.reflection_fuzz, o.mat.refraction_index⟩⟩) ∧
    (∀ (tg : ℤ) (sp : Sphere) (m : MeshMaterial),
      (Object.mk tg sp m).mat.refraction_index = m.refraction_index ∧
      (Object.mk tg sp m).mat.reflection_fuzz = m.reflection_fuzz ∧
      (Object.mk tg sp m).mat.emission = m.emission ∧
      (Object.mk tg sp m).s.radius = sp.radius) := by
  refine ⟨rfl, rfl, rfl, rfl, by decide, by decide, by decide, ?_, ?_⟩
  · intro o
    obtain ⟨tg, ⟨cc, rr⟩, ⟨mt, me, ma, mec, mf, mri⟩⟩ := o
    rfl
  · intro tg sp m
    exact ⟨rfl, rfl, rfl, rfl⟩

theorem v3_dot_comm (a b : Vec3) : dot a b = dot b a := by
  simp only [dot]
  ring

theorem v3_dot_neg_left (a b : Vec3) : dot (-a) b = -dot a b := by
  simp only [dot, v3_neg_x, v3_neg_y, v3_neg_z]
  ring

theorem sphereQuadA_nonneg (ry : Ray) : 0 ≤ sphereQuadA ry := by
  simp only [sphereQuadA, dot]
  nlinarith [mul_self_nonneg ry.direction.x, mul_self_nonneg ry.direction.y,
    mul_self_nonneg ry.direction.z]

theorem sphereQuadA_zero_of_dir (ry : Ray) (h : ry.direction = 0) : sphereQuadA ry = 0 := by
  simp [sphereQuadA, dot, h]

@[simp] theorem beforeMax_none_iff (t : ℝ) : beforeMax t none ↔ True := Iff.rfl

@[simp] theorem beforeMax_some_iff (t m : ℝ) : beforeMax t (some m) ↔ t < m := Iff.rfl

theorem hitSphere_some_elim {ry : Ray} {s : Sphere} {tmin : ℝ} {tmax : Option ℝ} {t : ℝ}
    (h : hitSphere ry s tmin tmax = some t) :
    0 < s.radius ∧ sphereQuadA ry ≠ 0 ∧ 0 ≤ sphereDisc ry s ∧
    (t = sphereRoot1 ry s ∨ t = sphereRoot2 ry s) ∧ tmin < t ∧ beforeMax t tmax := by
  unfold hitSphere at h
  split_ifs at h with h1 h2 h3 h4
  · simp only [Option.some.injEq] at h
    subst h
    push_neg at h1
    exact ⟨h1.1, h1.2, le_of_not_lt h2, Or.inl rfl, h3.1, h3.2⟩
  · simp only [Option.some.injEq] at h
    subst h
    push_neg at h1
    exact ⟨h1.1, h1.2, le_of_not_lt h2, Or.inr rfl, h4.1, h4.2⟩

theorem quad_root_aux (A B C t s : ℝ) (hA : A ≠ 0) (hs : s ^ 2 = B ^ 2 - 4 * A * C)
    (ht : 2 * A * t = -B - s ∨ 2 * A * t = -B + s) :
    A * t ^ 2 + B * t + C = 0 := by
  have h4 : (4 : ℝ) * A ≠ 0 := mul_ne_zero (by norm_num) hA
  apply mul_left_cancel₀ h4
  rcases ht with h | h
  · linear_combination (2 * A * t + B - s) * h + hs
  · linear_combination (2 * A * t + B + s) * h + hs

theorem root_satisfies_quadratic {ry : Ray} {s : Sphere} (hA : sphereQuadA ry ≠ 0)
    (hd : 0 ≤ sphereDisc ry s) {t : ℝ}
    (ht : t = sphereRoot1 ry s ∨ t = sphereRoot2 ry s) :
    sphereQuadA ry * t ^ 2 + sphereQuadB ry s * t + sphereQuadC ry s = 0 := by
  have hsq : Real.sqrt (sphereDisc ry s) ^ 2 =
      sphereQuadB ry s ^ 2 - 4 * sphereQuadA ry * sphereQuadC ry s := by
    rw [Real.sq_sqrt hd, sphereDisc]
  have h2a : 2 * sphereQuadA ry ≠ 0 := mul_ne_zero (by norm_num) hA
  apply quad_root_aux _ _ _ _ (Real.sqrt (sphereDisc ry s)) hA hsq
  rcases ht with rfl | rfl
  · left
    rw [sphereRoot1]
    field_simp
  · right
    rw [sphereRoot2]
    field_simp

theorem quadratic_point_on_sphere {ry : Ray} {s : Sphere} {t : ℝ}
    (h : sphereQuadA ry * t ^ 2 + sphereQuadB ry s * t + sphereQuadC ry s = 0) :
    dot (rayAt ry t - s.center) (rayAt ry t - s.center) = s.radius ^ 2 := by
  simp only [sphereQuadA, sphereQuadB, sphereQuadC, dot, rayAt, v3_sub_x, v3_sub_y,
    v3_sub_z, v3_add_x, v3_add_y, v3_add_z, v3_smul_x, v3_smul_y, v3_smul_z] at h ⊢
  linear_combination h

theorem sphereRoot1_le_sphereRoot2 {ry : Ray} {s : Sphere} (hA : sphereQuadA ry ≠ 0)
    (hd : 0 ≤ sphereDisc ry s) : sphereRoot1 ry s ≤ sphereRoot2 ry s := by
  have hApos : 0 < sphereQuadA ry := lt_of_le_of_ne (sphereQuadA_nonneg ry) (Ne.symm hA)
  have h2a : 0 < 2 * sphereQuadA ry := by linarith
  rw [sphereRoot1, sphereRoot2, div_le_div_iff_of_pos_right h2a]
  have := Real.sqrt_nonneg (sphereDisc ry s)
  linarith

@[simp] theorem nearerHit_none_left (c : Option Hit) : nearerHit none c = c := rfl

@[simp] theorem nearerHit_some_none (b : Hit) : nearerHit (some b) none = some b := rfl

@[simp] theorem nearerHit_some_some (b c : Hit) :
    nearerHit (some b) (some c) = if c.t < b.t then some c else some b := rfl

theorem nearerHit_none_iff (best cand : Option Hit) :
    nearerHit best cand = none ↔ best = none ∧ cand = none := by
  cases best with
  | none => cases cand <;> simp
  | some b =>
    cases cand with
    | none => simp
    | some c =>
      simp only [nearerHit_some_some]
      split_ifs <;> simp

theorem sceneFold_char (ry : Ray) (tmin : ℝ) (objs : List Object) : ∀ best : Option Hit,
    (objs.foldl (fun b o => nearerHit b (intersectObj ry o tmin none)) best = none ↔
      best = none ∧ ∀ o ∈ objs, intersectObj ry o tmin none = none) ∧
    (∀ hh : Hit,
      objs.foldl (fun b o => nearerHit b (intersectObj ry o tmin none)) best = some hh →
      (best = some hh ∨ ∃ o ∈ objs, intersectObj ry o tmin none = some hh) ∧
      (∀ b : Hit, best = some b → hh.t ≤ b.t) ∧
      (∀ o ∈ objs, ∀ h2 : Hit, intersectObj ry o tmin none = some h2 → hh.t ≤ h2.t)) := by
  induction objs with
  | nil =>
    intro best
    constructor
    · simp
    · intro hh h
      simp only [List.foldl_nil] at h
      subst h
      refine ⟨Or.inl rfl, ?_, by simp⟩
      intro b hb
      injection hb with hb
      rw [hb]
  | cons o rest ih =>
    intro best
    obtain ⟨ihn, ihs⟩ := ih (nearerHit best (intersectObj ry o tmin none))
    constructor
    · rw [List.foldl_cons, ihn, nearerHit_none_iff, List.forall_mem_cons]
      tauto
    · intro hh h
      rw [List.foldl_cons] at h
      obtain ⟨prov, bmin, omin⟩ := ihs hh h
      refine ⟨?_, ?_, ?_⟩
      · rcases prov with hnb | ⟨o2, ho2, he2⟩
        · rcases hbest : best with _ | b
          · rw [hbest, nearerHit_none_left] at hnb
            exact Or.inr ⟨o, List.mem_cons_self o rest, hnb⟩
          · rcases hc : intersectObj ry o tmin none with _ | cc
            · rw [hbest, hc, nearerHit_some_none] at hnb
              exact Or.inl hnb
            · rw [hbest, hc, nearerHit_some_some] at hnb
              split_ifs at hnb with hlt
              · exact Or.inr ⟨o, List.mem_cons_self o rest, hc.trans hnb⟩
              · exact Or.inl hnb
        · exact Or.inr ⟨o2, List.mem_cons_of_mem o ho2, he2⟩
      · intro b0 hb0
        rcases hc : intersectObj ry o tmin none with _ | cc
        · exact bmin b0 (by rw [hb0, hc, nearerHit_some_none])
        · by_cases hlt : cc.t < b0.t
          · have h1 := bmin cc (by rw [hb0, hc, nearerHit_some_some, if_pos hlt])
            linarith
          · exact bmin b0 (by rw [hb0, hc, nearerHit_some_some, if_neg hlt])
      · rw [List.forall_mem_cons]
        refine ⟨?_, omin⟩
        intro h2 he2
        rcases hbest : best with _ | b
        · exact bmin h2 (by rw [hbest, he2, nearerHit_none_left])
        · by_cases hlt : h2.t < b.t
          · exact bmin h2 (by rw [hbest, he2, nearerHit_some_some, if_pos hlt])
          · have h1 := bmin b (by rw [hbest, he2, nearerHit_some_some, if_neg hlt])
            push_neg at hlt
            linarith

/-- C3: per sphere the Intersector solves the quadratic of the sphere
equation: any returned t is a genuine root lying inside the valid interval, a
negative discriminant yields no hit, and the selection order is the smaller
root first, falling back to the larger root, else no hit; across all objects
a candidate is kept only when its t is strictly smaller than every t found so
far, so a returned hit realizes the minimum object distance, and no hit is
returned exactly when no object yields a t in the valid interval. -/
theorem intersector_quadratic_and_nearest (ry : Ray) (s : Sphere) (tmin : ℝ)
    (tmax : Option ℝ) :
    (∀ t : ℝ, hitSphere ry s tmin tmax = some t →
      sphereQuadA ry * t ^ 2 + sphereQuadB ry s * t + sphereQuadC ry s = 0 ∧
      dot (rayAt ry t - s.center) (rayAt ry t - s.center) = s.radius ^ 2 ∧
      tmin < t ∧ beforeMax t tmax) ∧
    (sphereDisc ry s < 0 → hitSphere ry s tmin tmax = none) ∧
    (0 < s.radius → sphereQuadA ry ≠ 0 → 0 ≤ sphereDisc ry s →
      sphereRoot1 ry s ≤ sphereRoot2 ry s ∧
      (tmin < sphereRoot1 ry s ∧ beforeMax (sphereRoot1 ry s) tmax →
        hitSphere ry s tmin tmax = some (sphereRoot1 ry s)) ∧
      (¬(tmin < sphereRoot1 ry s ∧ beforeMax (sphereRoot1 ry s) tmax) →
        tmin < sphereRoot2 ry s ∧ beforeMax (sphereRoot2 ry s) tmax →
        hitSphere ry s tmin tmax = some (sphereRoot2 ry s)) ∧
      (¬(tmin < sphereRoot1 ry s ∧ beforeMax (sphereRoot1 ry s) tmax) →
        ¬(tmin < sphereRoot2 ry s ∧ beforeMax (sphereRoot2 ry s) tmax) →
        hitSphere ry s tmin tmax = none)) ∧
    (∀ objs : List Object,
      (intersectScene ry tmin objs = none ↔
        ∀ o ∈ objs, intersectObj ry o tmin none = none) ∧
      (∀ hh : Hit, intersectScene ry tmin objs = some hh →
        (∃ o ∈ objs, intersectObj ry o tmin none = some hh) ∧
        ∀ o ∈ objs, ∀ h2 : Hit, intersectObj ry o tmin none = some h2 → hh.t ≤ h2.t)) := by
  refine ⟨?_, ?_, ?_, ?_⟩
  · intro t ht
    obtain ⟨hr, hA, hd, hroots, htmin, htmax⟩ := hitSphere_some_elim ht
    have hq := root_satisfies_quadratic hA hd hroots
    exact ⟨hq, quadratic_point_on_sphere hq, htmin, htmax⟩
  · intro hdisc
    unfold hitSphere
    split_ifs with h1 h2 h3 h4 <;> first | rfl | exact absurd hdisc (by assumption)
  · intro hr hA hd
    have hg1 : ¬(s.radius ≤ 0 ∨ sphereQuadA ry = 0) := by
      push_neg
      exact ⟨hr, hA⟩
    have hg2 : ¬(sphereDisc ry s < 0) := not_lt.mpr hd
    refine ⟨sphereRoot1_le_sphereRoot2 hA hd, ?_, ?_, ?_⟩
    · intro hc1
      unfold hitSphere
      rw [if_neg hg1, if_neg hg2, if_pos hc1]
    · intro hc1 hc2
      unfold hitSphere
      rw [if_neg hg1, if_neg hg2, if_neg hc1, if_pos hc2]
    · intro hc1 hc2
      unfold hitSphere
      rw [if_neg hg1, if_neg hg2, if_neg hc1, if_neg hc2]
  · intro objs
    obtain ⟨hn, hs⟩ := sceneFold_char ry tmin objs none
    constructor
    · rw [intersectScene, hn]
      simp
    · intro hh h
      rw [intersectScene] at h
      obtain ⟨prov, _, omin⟩ := hs hh h
      rcases prov with hbad | hex
      · exact absurd hbad (by simp)
      · exact ⟨hex, omin⟩

/-- C7: degenerate geometry is a no-op for the intersection kernel: a sphere
of nonpositive radius is reported as no hit by the per-sphere test and the
per-object test, and a ray with zero-length direction hits nothing in any
scene. -/
theorem degenerate_geometry_no_hit (ry : Ray) (s : Sphere) (tmin : ℝ) (tmax : Option ℝ) :
    (s.radius ≤ 0 → hitSphere ry s tmin tmax = none) ∧
    (ry.direction = 0 → hitSphere ry s tmin tmax = none) ∧
    (∀ o : Object, o.s.radius ≤ 0 → intersectObj ry o tmin tmax = none) ∧
    (ry.direction = 0 → ∀ objs : List Object, intersectScene ry tmin objs = none) := by
  have hrad : ∀ s2 : Sphere, s2.radius ≤ 0 → hitSphere ry s2 tmin tmax = none := by
    intro s2 h2
    unfold hitSphere
    rw [if_pos (Or.inl h2)]
  have hdir : ∀ (s2 : Sphere) (tmax2 : Option ℝ), ry.direction = 0 →
      hitSphere ry s2 tmin tmax2 = none := by
    intro s2 tmax2 h2
    unfold hitSphere
    rw [if_pos (Or.inr (sphereQuadA_zero_of_dir ry h2))]
  refine ⟨hrad s, hdir s tmax, ?_, ?_⟩
  · intro o ho
    unfold intersectObj
    split_ifs with hty
    · rw [hrad o.s ho]
    · rfl
  · intro h2 objs
    rw [intersectScene, (sceneFold_char ry tmin objs none).1]
    refine ⟨rfl, ?_⟩
    intro o _
    unfold intersectObj
    split_ifs with hty
    · rw [hdir o.s none h2]
    · rfl

theorem intersectObj_some_elim {ry : Ray} {o : Object} {tmin : ℝ} {tmax : Option ℝ}
    {hh : Hit} (h : intersectObj ry o tmin tmax = some hh) :
    ∃ t : ℝ, hitSphere ry o.s tmin tmax = some t ∧
      hh = ⟨rayAt ry t, faceNormal ry.direction (outwardNormal o.s (rayAt ry t)), t, o.mat⟩ := by
  unfold intersectObj at h
  split_ifs at h with hty
  rcases hs : hitSphere ry o.s tmin tmax with _ | t <;> rw [hs] at h
  · simp at h
  · simp only [Option.some.injEq] at h
    exact ⟨t, rfl, h.symm⟩

theorem intersectObj_normal_props {ry : Ray} {o : Object} {tmin : ℝ} {tmax : Option ℝ}
    {hh : Hit} (h : intersectObj ry o tmin tmax = some hh) :
    dot hh.normal hh.normal = 1 ∧ dot hh.normal ry.direction ≤ 0 := by
  obtain ⟨t, hs, rfl⟩ := intersectObj_some_elim h
  obtain ⟨hr, hA, hd, hroots, _, _⟩ := hitSphere_some_elim hs
  have hons := quadratic_point_on_sphere (root_satisfies_quadratic hA hd hroots)
  have hrne : o.s.radius ≠ 0 := ne_of_gt hr
  constructor
  · dsimp only
    unfold faceNormal
    split_ifs with hside
    · unfold outwardNormal
      simp only [dot, v3_smul_x, v3_smul_y, v3_smul_z, v3_sub_x, v3_sub_y, v3_sub_z] at hons ⊢
      field_simp
      linear_combination hons
    · unfold outwardNormal
      simp only [dot, v3_neg_x, v3_neg_y, v3_neg_z, v3_smul_x, v3_smul_y, v3_smul_z,
        v3_sub_x, v3_sub_y, v3_sub_z] at hons ⊢
      field_simp
      linear_combination hons
  · dsimp only
    unfold faceNormal
    split_ifs with hside
    · rw [v3_dot_comm]
      exact le_of_lt hside
    · rw [v3_dot_neg_left, v3_dot_comm]
      push_neg at hside
      linarith

theorem intersectScene_normal_props {ry : Ray} {objs : List Object} {tmin : ℝ} {hh : Hit}
    (h : intersectScene ry tmin objs = some hh) :
    dot hh.normal hh.normal = 1 ∧ dot hh.normal ry.direction ≤ 0 := by
  rw [intersectScene] at h
  obtain ⟨prov, _, _⟩ := (sceneFold_char ry tmin objs none).2 hh h
  rcases prov with hbad | ⟨o, _, he⟩
  · exact absurd hbad (by simp)
  · exact intersectObj_normal_props he

theorem hitSphere_head_on (R tmin : ℝ) (hR : 0 < R) (h0 : 0 < tmin) (htm : tmin < R) :
    hitSphere ⟨⟨0, 0, -(2*R)⟩, ⟨0, 0, 1⟩⟩ ⟨⟨0, 0, 0⟩, R⟩ tmin none = some R := by
  have hA : sphereQuadA ⟨⟨0, 0, -(2*R)⟩, ⟨0, 0, 1⟩⟩ = 1 := by
    simp [sphereQuadA, dot]
  have hB : sphereQuadB ⟨⟨0, 0, -(2*R)⟩, ⟨0, 0, 1⟩⟩ ⟨⟨0, 0, 0⟩, R⟩ = -(4*R) := by
    simp [sphereQuadB, dot]
    ring
  have hC : sphereQuadC ⟨⟨0, 0, -(2*R)⟩, ⟨0, 0, 1⟩⟩ ⟨⟨0, 0, 0⟩, R⟩ = 3*R^2 := by
    simp [sphereQuadC, dot]
    ring
  have hD : sphereDisc ⟨⟨0, 0, -(2*R)⟩, ⟨0, 0, 1⟩⟩ ⟨⟨0, 0, 0⟩, R⟩ = (2*R)^2 := by
    rw [sphereDisc, hA, hB, hC]
    ring
  have hr1 : sphereRoot1 ⟨⟨0, 0, -(2*R)⟩, ⟨0, 0, 1⟩⟩ ⟨⟨0, 0, 0⟩, R⟩ = R := by
    rw [sphereRoot1, hB, hD, hA, Real.sqrt_sq (by positivity)]
    ring
  unfold hitSphere
  split_ifs with h1 h2 h3
  · exfalso
    rcases h1 with h1 | h1
    · exact absurd h1 (not_le.mpr hR)
    · rw [hA] at h1
      exact one_ne_zero h1
  · exfalso
    rw [hD] at h2
    exact absurd h2 (not_lt.mpr (sq_nonneg _))
  · rw [hr1]
  · exact absurd ⟨by rw [hr1]; exact htm, trivial⟩ h3
  · exact absurd ⟨by rw [hr1]; exact htm, trivial⟩ h3

theorem intersectObj_head_on (R tmin : ℝ) (hR : 0 < R) (h0 : 0 < tmin) (htm : tmin < R)
    (m : MeshMaterial) :
    intersectObj ⟨⟨0, 0, -(2*R)⟩, ⟨0, 0, 1⟩⟩ ⟨TYPE_SPHERE, ⟨⟨0, 0, 0⟩, R⟩, m⟩ tmin none =
      some ⟨⟨0, 0, -R⟩, ⟨0, 0, -1⟩, R, m⟩ := by
  have hRne : R ≠ 0 := ne_of_gt hR
  have hp : rayAt ⟨⟨0, 0, -(2*R)⟩, ⟨0, 0, 1⟩⟩ R = ⟨0, 0, -R⟩ := by
    apply v3_ext <;> simp [rayAt] <;> ring
  have hn0 : outwardNormal ⟨⟨0, 0, 0⟩, R⟩ ⟨0, 0, -R⟩ = ⟨0, 0, -1⟩ := by
    apply v3_ext <;> simp [outwardNormal] <;> field_simp
  have hfn : faceNormal ⟨0, 0, 1⟩ ⟨0, 0, -1⟩ = ⟨0, 0, -1⟩ := by
    rw [faceNormal, if_pos]
    norm_num [dot]
  simp only [intersectObj, hitSphere_head_on R tmin hR h0 htm, if_true]
  rw [hp, hn0, hfn]

/-- C9: a sphere of radius R centered at the origin, probed head-on by a ray
from (0, 0, -2R) toward the origin, is hit at parametric distance R with
normal the unit vector pointing back toward the camera along the ray axis;
and every hit the Intersector returns, per object or over a whole scene, has
a unit-length normal oriented against the incoming ray direction. -/
theorem head_on_hit_and_unit_normals (R tmin : ℝ) (hR : 0 < R) (h0 : 0 < tmin)
    (htm : tmin < R) :
    (∀ m : MeshMaterial,
      intersectObj ⟨⟨0, 0, -(2*R)⟩, ⟨0, 0, 1⟩⟩ ⟨TYPE_SPHERE, ⟨⟨0, 0, 0⟩, R⟩, m⟩ tmin none =
        some ⟨⟨0, 0, -R⟩, ⟨0, 0, -1⟩, R, m⟩) ∧
    (∀ (ry : Ray) (o : Object) (tmin2 : ℝ) (tmax : Option ℝ) (hh : Hit),
      intersectObj ry o tmin2 tmax = some hh →
        dot hh.normal hh.normal = 1 ∧ dot hh.normal ry.direction ≤ 0) ∧
    (∀ (ry : Ray) (objs : List Object) (tmin2 : ℝ) (hh : Hit),
      intersectScene ry tmin2 objs = some hh →
        dot hh.normal hh.normal = 1 ∧ dot hh.normal ry.direction ≤ 0) :=
  ⟨fun m => intersectObj_head_on R tmin hR h0 htm m,
    fun _ _ _ _ _ h => intersectObj_normal_props h,
    fun _ _ _ _ h => intersectScene_normal_props h⟩

/-- Witness for C9 at the unit sphere, probed from (0, 0, -2) with the valid
interval starting at one half. -/
theorem head_on_hit_and_unit_normals_witness :
    ((0:ℝ) < 1 ∧ (0:ℝ) < 1/2 ∧ (1/2:ℝ) < 1) ∧
    ((∀ m : MeshMaterial,
      intersectObj ⟨⟨0, 0, -(2*1)⟩, ⟨0, 0, 1⟩⟩ ⟨TYPE_SPHERE, ⟨⟨0, 0, 0⟩, 1⟩, m⟩ (1/2) none =
        some ⟨⟨0, 0, -1⟩, ⟨0, 0, -1⟩, 1, m⟩) ∧
    (∀ (ry : Ray) (o : Object) (tmin2 : ℝ) (tmax : Option ℝ) (hh : Hit),
      intersectObj ry o tmin2 tmax = some hh →
        dot hh.normal hh.normal = 1 ∧ dot hh.normal ry.direction ≤ 0) ∧
    (∀ (ry : Ray) (objs : List Object) (tmin2 : ℝ) (hh : Hit),
      intersectScene ry tmin2 objs = some hh →
        dot hh.normal hh.normal = 1 ∧ dot hh.normal ry.direction ≤ 0)) :=
  ⟨⟨by norm_num, by norm_num, by norm_num⟩,
    head_on_hit_and_unit_normals 1 (1/2) (by norm_num) (by norm_num) (by norm_num)⟩

end RayTracer
